import Mathlib

/-!
Shallow embedding of the dqlite client address store (`store.go`): the
`DatabaseServerStore` persistent backend with its transactional `Get` and
`Set` operations over a single SQLite table `servers` holding one unique
text column `address`, plus the `DefaultServerStore` bootstrap helper.

The durable contents of the table are a `List String` of addresses in row
insertion order.  The external SQLite backend (reached through Go's
`database/sql` package) is modelled by explicit failure-injection flags for
each fallible call the Go code makes (`Begin`, `ExecContext` of the delete,
`PrepareContext`, `ExecContext` of each insert, `Commit`, `QueryContext`,
`rows.Scan`, `rows.Err`); a flag being set covers connection errors and
context cancellation alike.  Transactions follow SQL semantics: the durable
table changes only when `Commit` succeeds, and every other exit leaves it
untouched (a failed commit leaves the pre-transaction state intact, the
transaction rolled back by the backend).  The `UNIQUE(address)` constraint
of the schema is checked by the backend on every insert against the
transaction's pending view of the table.

Each operation also returns the trace of transaction-level events it
performed, used to verify the specified state machine and the guarantee
that every transaction is released on every exit path.
-/

namespace Dqlite

/-- Durable contents of the servers table: one address string per row, in
insertion order. -/
abbrev Table := List String

/-- A database handle as configured by `sql.Open` followed by
`SetMaxOpenConns`: the only observable configuration the Go code sets on it
is the maximum number of open connections. -/
structure DB where
  maxOpenConns : Nat
  deriving DecidableEq

/-- The `DatabaseServerStore` struct of `store.go`: a database handle plus
the schema, table and column names used to build the SQL queries. -/
structure DatabaseServerStore where
  db : DB
  schema : String
  table : String
  column : String
  deriving DecidableEq

/-- The `NewServerStore` constructor of `store.go`. -/
def NewServerStore (db : DB) (schema table column : String) : DatabaseServerStore :=
  ⟨db, schema, table, column⟩

/-- Errors `Set` can return, one per wrap site in the Go code.  An insert
can fail either because the backend rejects the row (UNIQUE constraint
violation, `duplicateAddress`) or because of an injected backend failure
such as a connection error or context cancellation (`insertFailed`). -/
inductive SetErr where
  | beginFailed
  | deleteFailed
  | prepareFailed
  | insertFailed (i : Nat)
  | duplicateAddress (a : String)
  | commitFailed
  deriving DecidableEq

/-- Errors `Get` can return, one per wrap site in the Go code. -/
inductive GetErr where
  | beginFailed
  | queryFailed
  | scanFailed (i : Nat)
  | rowsFailed
  deriving DecidableEq

/-- Transaction-level events of a `Set` call. -/
inductive SetStep where
  | txBegin
  | rowsDeleted
  | rowInserted (a : String)
  | committed
  | rolledBack
  deriving DecidableEq

/-- Transaction-level events of a `Get` call. -/
inductive GetStep where
  | txBegin
  | queryRun
  | rowScanned (a : String)
  | txRolledBack
  deriving DecidableEq

/-- Failure injection for the backend calls made by `Set`: whether `Begin`
fails, whether the delete fails, whether `PrepareContext` fails, at which
insert index (if any) the backend fails for a non-constraint reason, and
whether `Commit` fails. -/
structure SetFailure where
  beginFails : Bool
  deleteFails : Bool
  prepareFails : Bool
  insertFailAt : Option Nat
  commitFails : Bool
  deriving DecidableEq

/-- A run of `Set` with no backend failure injected. -/
def noSetFail : SetFailure := ⟨false, false, false, none, false⟩

/-- Failure injection for the backend calls made by `Get`. -/
structure GetFailure where
  beginFails : Bool
  queryFails : Bool
  scanFailAt : Option Nat
  rowsErrFails : Bool
  deriving DecidableEq

/-- A run of `Get` with no backend failure injected. -/
def noGetFail : GetFailure := ⟨false, false, none, false⟩

/-- Result of a `Set` call: the durable table after the call, the returned
error (if any), and the trace of transaction events. -/
structure SetResult where
  table : Table
  error : Option SetErr
  trace : List SetStep
  deriving DecidableEq

/-- Result of a `Get` call: the durable table after the call, the returned
slice (`none` models the Go `nil` slice returned on error paths, `some`
an allocated slice), the returned error, and the trace of transaction
events. -/
structure GetResult where
  table : Table
  addresses : Option (List String)
  error : Option GetErr
  trace : List GetStep
  deriving DecidableEq

/-- The insert loop of `Set` (`store.go` lines 126-131): executes the
prepared insert once per address, in input order, against the
transaction's pending view of the table.  The backend rejects a row that
is already present in the pending view (UNIQUE constraint); an injected
failure at index `i` models a connection error or context cancellation on
that `ExecContext` call.  Returns the final pending view, the first error,
and the insert events that happened. -/
def insertLoop (fs : SetFailure) (pending : Table) (addresses : List String) (i : Nat) :
    Table × Option SetErr × List SetStep :=
  match addresses with
  | [] => (pending, none, [])
  | a :: rest =>
    if fs.insertFailAt = some i then
      (pending, some (SetErr.insertFailed i), [])
    else if a ∈ pending then
      (pending, some (SetErr.duplicateAddress a), [])
    else
      let r := insertLoop fs (pending ++ [a]) rest (i + 1)
      (r.1, r.2.1, SetStep.rowInserted a :: r.2.2)

/-- The `Set` method of `DatabaseServerStore` (`store.go` lines 106-138):
begin a write transaction; delete all rows; prepare the insert statement;
insert each address; commit.  On any failure after `Begin`, the
transaction is rolled back (explicitly by `tx.Rollback()` in the Go code,
or by the backend on a failed commit) and the durable table is left
unchanged; only a successful commit makes the pending view durable. -/
def DatabaseServerStore.Set (_d : DatabaseServerStore) (fs : SetFailure)
    (t : Table) (addresses : List String) : SetResult :=
  if fs.beginFails then
    ⟨t, some SetErr.beginFailed, []⟩
  else if fs.deleteFails then
    ⟨t, some SetErr.deleteFailed, [SetStep.txBegin, SetStep.rolledBack]⟩
  else if fs.prepareFails then
    ⟨t, some SetErr.prepareFailed, [SetStep.txBegin, SetStep.rowsDeleted, SetStep.rolledBack]⟩
  else
    let r := insertLoop fs [] addresses 0
    match r.2.1 with
    | some e =>
      ⟨t, some e, SetStep.txBegin :: SetStep.rowsDeleted :: r.2.2 ++ [SetStep.rolledBack]⟩
    | none =>
      if fs.commitFails then
        ⟨t, some SetErr.commitFailed,
          SetStep.txBegin :: SetStep.rowsDeleted :: r.2.2 ++ [SetStep.rolledBack]⟩
      else
        ⟨r.1, none, SetStep.txBegin :: SetStep.rowsDeleted :: r.2.2 ++ [SetStep.committed]⟩

/-- The row-scan loop of `Get` (`store.go` lines 89-97): scans each row of
the result set in turn, appending to the accumulator that started as the
allocated empty slice `make([]string, 0)`.  On a scan failure the Go code
returns the `nil` slice (`none`) with the error. -/
def scanLoop (failAt : Option Nat) (rows : List String) (i : Nat) (acc : List String) :
    Option (List String) × Option GetErr × List GetStep :=
  match rows with
  | [] => (some acc, none, [])
  | a :: rest =>
    if failAt = some i then
      (none, some (GetErr.scanFailed i), [])
    else
      let r := scanLoop failAt rest (i + 1) (acc ++ [a])
      (r.1, r.2.1, GetStep.rowScanned a :: r.2.2)

/-- The `Get` method of `DatabaseServerStore` (`store.go` lines 75-103):
begin a transaction with `defer tx.Rollback()`, query all rows of the
address column, scan them into a slice allocated empty, check
`rows.Err()`, and return.  The deferred rollback releases the transaction
on every exit path after a successful begin; a read transaction has no
durable effect, so the table is returned unchanged. -/
def DatabaseServerStore.Get (_d : DatabaseServerStore) (fs : GetFailure)
    (t : Table) : GetResult :=
  if fs.beginFails then
    ⟨t, none, some GetErr.beginFailed, []⟩
  else if fs.queryFails then
    ⟨t, none, some GetErr.queryFailed, [GetStep.txBegin, GetStep.txRolledBack]⟩
  else
    let r := scanLoop fs.scanFailAt t 0 []
    match r.1 with
    | none =>
      ⟨t, none, r.2.1, GetStep.txBegin :: GetStep.queryRun :: r.2.2 ++ [GetStep.txRolledBack]⟩
    | some acc =>
      if fs.rowsErrFails then
        ⟨t, none, some GetErr.rowsFailed,
          GetStep.txBegin :: GetStep.queryRun :: r.2.2 ++ [GetStep.txRolledBack]⟩
      else
        ⟨t, some acc, none,
          GetStep.txBegin :: GetStep.queryRun :: r.2.2 ++ [GetStep.txRolledBack]⟩

/-- Errors of the `DefaultServerStore` bootstrap helper. -/
inductive BootErr where
  | openFailed
  | createTableFailed
  deriving DecidableEq

/-- The `CREATE TABLE IF NOT EXISTS` statement run by `DefaultServerStore`:
the storage either already holds a servers table (`some rows`) or not
(`none`); the statement creates an empty table only when absent. -/
def createTableIfNotExists (st : Option Table) : Option Table :=
  match st with
  | some rows => some rows
  | none => some []

/-- The `DefaultServerStore` helper (`store.go` lines 42-62): open the
SQLite database at the given filename, set the maximum open connections to
one, create the servers table if it does not exist yet, and return a store
built by `NewServerStore` with the default schema, table and column names.
Returns the storage after the call, the store (on success) and the error
(on failure). -/
def DefaultServerStore (openFails execFails : Bool) (st : Option Table) :
    Option Table × Option DatabaseServerStore × Option BootErr :=
  if openFails then
    (st, none, some BootErr.openFailed)
  else
    let db : DB := ⟨1⟩
    if execFails then
      (st, none, some BootErr.createTableFailed)
    else
      (createTableIfNotExists st, some (NewServerStore db "main" "servers" "address"), none)

/-- States of the `Set` state machine given in the specification. -/
inductive MState where
  | idle
  | txOpen
  | rowsDel
  | committed
  | rolledBack
  deriving DecidableEq

/-- Transition relation of the specified `Set` state machine:
Idle to TransactionOpen on begin, TransactionOpen to RowsDeleted on the
delete, RowsDeleted to itself on each insert, RowsDeleted to Committed on
commit, and an error at either non-terminal open state goes directly to
RolledBack. -/
def mstep : MState → SetStep → Option MState
  | MState.idle, SetStep.txBegin => some MState.txOpen
  | MState.txOpen, SetStep.rowsDeleted => some MState.rowsDel
  | MState.txOpen, SetStep.rolledBack => some MState.rolledBack
  | MState.rowsDel, SetStep.rowInserted _ => some MState.rowsDel
  | MState.rowsDel, SetStep.committed => some MState.committed
  | MState.rowsDel, SetStep.rolledBack => some MState.rolledBack
  | _, _ => none

/-- Run the `Set` state machine over a trace from a starting state;
`none` means the trace is not accepted from that state. -/
def mrun (tr : List SetStep) (s : MState) : Option MState :=
  match tr with
  | [] => some s
  | st :: rest =>
    match mstep s st with
    | none => none
    | some s2 => mrun rest s2

/-- The addresses inserted along a `Set` trace, in order. -/
def insertsOf (tr : List SetStep) : List String :=
  tr.filterMap (fun s =>
    match s with
    | SetStep.rowInserted a => some a
    | _ => none)

/-- A store handle as built by `DefaultServerStore`, used to instantiate
general theorems at concrete inputs. -/
def sampleStore : DatabaseServerStore := NewServerStore ⟨1⟩ "main" "servers" "address"

@[simp] theorem noSetFail_beginFails : noSetFail.beginFails = false := rfl

@[simp] theorem noSetFail_deleteFails : noSetFail.deleteFails = false := rfl

@[simp] theorem noSetFail_prepareFails : noSetFail.prepareFails = false := rfl

@[simp] theorem noSetFail_insertFailAt : noSetFail.insertFailAt = none := rfl

@[simp] theorem noSetFail_commitFails : noSetFail.commitFails = false := rfl

@[simp] theorem noGetFail_beginFails : noGetFail.beginFails = false := rfl

@[simp] theorem noGetFail_queryFails : noGetFail.queryFails = false := rfl

@[simp] theorem noGetFail_scanFailAt : noGetFail.scanFailAt = none := rfl

@[simp] theorem noGetFail_rowsErrFails : noGetFail.rowsErrFails = false := rfl

/-- Appending a single element fixes the last element of a list. -/
theorem getLast?_concat_eq {α : Type} (l : List α) (a : α) : (l ++ [a]).getLast? = some a := by
  simp [List.getLast?_concat]

/-- Last element of a cons list ending in a single appended event. -/
theorem getLast?_cons_append {α : Type} (x : α) (l : List α) (a : α) :
    (x :: (l ++ [a])).getLast? = some a := by
  have h : x :: (l ++ [a]) = (x :: l) ++ [a] := by simp
  rw [h, getLast?_concat_eq]

/-- When no failure is injected and the addresses are fresh and
duplicate-free, the insert loop extends the pending view by all of them,
in input order, without error. -/
theorem insertLoop_success (fs : SetFailure) (pending : Table) (A : List String) (i : Nat)
    (hfa : fs.insertFailAt = none) (hdisj : ∀ a ∈ A, a ∉ pending) (hnd : A.Nodup) :
    insertLoop fs pending A i = (pending ++ A, none, A.map SetStep.rowInserted) := by
  induction A generalizing pending i with
  | nil => simp [insertLoop]
  | cons a rest ih =>
    have ha : a ∉ pending := hdisj a (by simp)
    have hrest : ∀ b ∈ rest, b ∉ pending ++ [a] := by
      intro b hb
      simp only [List.mem_append, List.mem_singleton]
      push_neg
      refine ⟨hdisj b (by simp [hb]), ?_⟩
      intro hba
      exact (List.nodup_cons.mp hnd).1 (hba ▸ hb)
    have hih := ih (pending ++ [a]) (i + 1) hrest (List.nodup_cons.mp hnd).2
    simp [insertLoop, hfa, ha, hih]

/-- When no failure is injected but the pending view would contain a
repeat, the insert loop fails with a UNIQUE constraint violation. -/
theorem insertLoop_duplicate (fs : SetFailure) (pending : Table) (A : List String) (i : Nat)
    (hfa : fs.insertFailAt = none) (hp : pending.Nodup) (hnd : ¬ (pending ++ A).Nodup) :
    ∃ a, (insertLoop fs pending A i).2.1 = some (SetErr.duplicateAddress a) := by
  induction A generalizing pending i with
  | nil => exact absurd (by simpa using hp) hnd
  | cons a rest ih =>
    by_cases ha : a ∈ pending
    · exact ⟨a, by simp [insertLoop, hfa, ha]⟩
    · have hp' : (pending ++ [a]).Nodup := by
        simp [List.nodup_append, hp, ha]
      have hnd' : ¬ ((pending ++ [a]) ++ rest).Nodup := by
        simpa [List.append_assoc] using hnd
      obtain ⟨b, hb⟩ := ih (pending ++ [a]) (i + 1) hp' hnd'
      refine ⟨b, ?_⟩
      simpa [insertLoop, hfa, ha] using hb

/-- The inserts performed by the insert loop are always a prefix of the
input, in input order. -/
theorem insertLoop_trace (fs : SetFailure) (pending : Table) (A : List String) (i : Nat) :
    ∃ k, (insertLoop fs pending A i).2.2 = (A.take k).map SetStep.rowInserted := by
  induction A generalizing pending i with
  | nil => exact ⟨0, by simp [insertLoop]⟩
  | cons a rest ih =>
    by_cases h1 : fs.insertFailAt = some i
    · exact ⟨0, by simp [insertLoop, h1]⟩
    · by_cases h2 : a ∈ pending
      · exact ⟨0, by simp [insertLoop, h1, h2]⟩
      · obtain ⟨k, hk⟩ := ih (pending ++ [a]) (i + 1)
        exact ⟨k + 1, by simp [insertLoop, h1, h2, hk]⟩

/-- If the insert loop reports no error, it inserted every input address
and its final pending view is the old one extended by the whole input. -/
theorem insertLoop_none (fs : SetFailure) (pending : Table) (A : List String) (i : Nat)
    (h : (insertLoop fs pending A i).2.1 = none) :
    (insertLoop fs pending A i).1 = pending ++ A ∧
    (insertLoop fs pending A i).2.2 = A.map SetStep.rowInserted := by
  induction A generalizing pending i with
  | nil => simp [insertLoop]
  | cons a rest ih =>
    by_cases h1 : fs.insertFailAt = some i
    · simp [insertLoop, h1] at h
    · by_cases h2 : a ∈ pending
      · simp [insertLoop, h1, h2] at h
      · have h' : (insertLoop fs (pending ++ [a]) rest (i + 1)).2.1 = none := by
          simpa [insertLoop, h1, h2] using h
        have hih := ih (pending ++ [a]) (i + 1) h'
        simp [insertLoop, h1, h2, hih.1, hih.2]

/-- With no scan failure injected, the scan loop returns the accumulator
extended by all rows, scanning each row in order. -/
theorem scanLoop_success (rows : List String) (i : Nat) (acc : List String) :
    scanLoop none rows i acc = (some (acc ++ rows), none, rows.map GetStep.rowScanned) := by
  induction rows generalizing i acc with
  | nil => simp [scanLoop]
  | cons a rest ih => simp [scanLoop, ih (i + 1) (acc ++ [a])]

/-- The rows scanned by the scan loop are always a prefix of the result
set, in order. -/
theorem scanLoop_trace (failAt : Option Nat) (rows : List String) (i : Nat)
    (acc : List String) :
    ∃ k, (scanLoop failAt rows i acc).2.2 = (rows.take k).map GetStep.rowScanned := by
  induction rows generalizing i acc with
  | nil => exact ⟨0, by simp [scanLoop]⟩
  | cons a rest ih =>
    by_cases h1 : failAt = some i
    · exact ⟨0, by simp [scanLoop, h1]⟩
    · obtain ⟨k, hk⟩ := ih (i + 1) (acc ++ [a])
      exact ⟨k + 1, by simp [scanLoop, h1, hk]⟩

/-- A `Get` never changes the durable table, on any path. -/
theorem Get_table (d : DatabaseServerStore) (fs : GetFailure) (t : Table) :
    (d.Get fs t).table = t := by
  unfold DatabaseServerStore.Get
  by_cases h1 : fs.beginFails = true
  · simp [h1]
  · by_cases h2 : fs.queryFails = true
    · simp [h1, h2]
    · simp only [h1, h2, if_false]
      cases hs : (scanLoop fs.scanFailAt t 0 []).1 with
      | none => simp [hs]
      | some acc =>
        by_cases h3 : fs.rowsErrFails = true <;> simp [hs, h3]

/-- A `Get` with no injected failure returns the table's rows in order,
with no error, having scanned every row and released the transaction. -/
theorem Get_noFail (d : DatabaseServerStore) (t : Table) :
    d.Get noGetFail t =
      ⟨t, some t, none,
        GetStep.txBegin :: GetStep.queryRun :: t.map GetStep.rowScanned ++
          [GetStep.txRolledBack]⟩ := by
  unfold DatabaseServerStore.Get
  simp [scanLoop_success]

/-- A `Set` with no injected failure and duplicate-free input replaces the
table contents and commits. -/
theorem Set_noFail_success (d : DatabaseServerStore) (t : Table) (A : List String)
    (hnd : A.Nodup) :
    d.Set noSetFail t A =
      ⟨A, none,
        SetStep.txBegin :: SetStep.rowsDeleted :: A.map SetStep.rowInserted ++
          [SetStep.committed]⟩ := by
  unfold DatabaseServerStore.Set
  have h := insertLoop_success noSetFail [] A 0 rfl (by simp) hnd
  simp [h]

/-- A `Set` that returns an error leaves the durable table unchanged. -/
theorem Set_error_table (d : DatabaseServerStore) (fs : SetFailure) (t : Table)
    (A : List String) (he : (d.Set fs t A).error.isSome = true) :
    (d.Set fs t A).table = t := by
  unfold DatabaseServerStore.Set at he ⊢
  by_cases h1 : fs.beginFails = true
  · simp [h1]
  · by_cases h2 : fs.deleteFails = true
    · simp [h1, h2]
    · by_cases h3 : fs.prepareFails = true
      · simp [h1, h2, h3]
      · cases hr : (insertLoop fs [] A 0).2.1 with
        | some e => simp [h1, h2, h3, hr]
        | none =>
          by_cases h4 : fs.commitFails = true
          · simp [h1, h2, h3, hr, h4]
          · simp [h1, h2, h3, hr, h4] at he

/-- A `Set` that began its transaction and returned an error ends its
trace with the rollback event. -/
theorem Set_error_rolledBack (d : DatabaseServerStore) (fs : SetFailure) (t : Table)
    (A : List String) (hb : fs.beginFails = false)
    (he : (d.Set fs t A).error.isSome = true) :
    (d.Set fs t A).trace.getLast? = some SetStep.rolledBack := by
  unfold DatabaseServerStore.Set at he ⊢
  by_cases h2 : fs.deleteFails = true
  · simp [hb, h2]
  · by_cases h3 : fs.prepareFails = true
    · simp [hb, h2, h3]
    · cases hr : (insertLoop fs [] A 0).2.1 with
      | some e => simp [hb, h2, h3, hr, getLast?_cons_append]
      | none =>
        by_cases h4 : fs.commitFails = true
        · simp [hb, h2, h3, hr, h4, getLast?_cons_append]
        · simp [hb, h2, h3, hr, h4] at he

/-- Running the specified machine over inserts keeps it in the
rows-deleted state. -/
theorem mrun_rowInserted_append (l : List String) (rest : List SetStep) :
    mrun (l.map SetStep.rowInserted ++ rest) MState.rowsDel = mrun rest MState.rowsDel := by
  induction l with
  | nil => rfl
  | cons a l ih => simpa [mrun, mstep] using ih

/-- An insert event contributes its address to the inserts of a trace. -/
theorem insertsOf_cons_row (a : String) (tr : List SetStep) :
    insertsOf (SetStep.rowInserted a :: tr) = a :: insertsOf tr := by
  simp [insertsOf]

/-- A map of insert events followed by a tail contributes exactly the
mapped addresses. -/
theorem insertsOf_map_append (l : List String) (rest : List SetStep) :
    insertsOf (l.map SetStep.rowInserted ++ rest) = l ++ insertsOf rest := by
  induction l with
  | nil => rfl
  | cons a l ih => simpa [insertsOf_cons_row] using ih

/-- The commit event inserts nothing. -/
theorem insertsOf_committed : insertsOf [SetStep.committed] = [] := rfl

/-- Balanced begin and release counts in a `Get` trace whose scanned
middle holds neither event. -/
theorem count_get_trace (M : List GetStep)
    (hb : M.count GetStep.txBegin = 0) (hr : M.count GetStep.txRolledBack = 0) :
    (GetStep.txBegin :: GetStep.queryRun :: M ++ [GetStep.txRolledBack]).count
        GetStep.txBegin =
      (GetStep.txBegin :: GetStep.queryRun :: M ++ [GetStep.txRolledBack]).count
        GetStep.txRolledBack := by
  simp [List.count_cons, List.count_append, hb, hr]

/-- The rollback event inserts nothing. -/
theorem insertsOf_rolledBack : insertsOf [SetStep.rolledBack] = [] := rfl

/-- Two concurrent `Set` calls against the same persistent store: the
single-connection restriction (`SetMaxOpenConns(1)` in
`DefaultServerStore`) allows at most one write transaction at a time, so
the two transactions execute in one of the two sequential orders, chosen
here by `aFirst`. -/
def serializeTwoSets (d : DatabaseServerStore) (aFirst : Bool) (t : Table)
    (A B : List String) : Table :=
  if aFirst then (d.Set noSetFail (d.Set noSetFail t A).table B).table
  else (d.Set noSetFail (d.Set noSetFail t B).table A).table

/-- C1: if `Set(B)` fails at any point after its transaction has begun
(delete, prepare, any insert, or commit, including failure caused by
context cancellation), the transaction is rolled back before the error is
returned and a subsequent `Get` returns exactly the set present before the
call — the durable state is unchanged. -/
theorem set_failure_rolls_back (d : DatabaseServerStore) (fs : SetFailure) (t : Table)
    (B : List String) (hb : fs.beginFails = false)
    (he : (d.Set fs t B).error.isSome = true) :
    (d.Set fs t B).table = t ∧
    (d.Set fs t B).trace.getLast? = some SetStep.rolledBack ∧
    (d.Get noGetFail (d.Set fs t B).table).addresses = some t := by
  have ht := Set_error_table d fs t B he
  exact ⟨ht, Set_error_rolledBack d fs t B hb he, by rw [ht, Get_noFail]⟩

/-- Witness for C1: a commit failure on a concrete store. -/
theorem set_failure_rolls_back_witness :
    ((⟨false, false, false, none, true⟩ : SetFailure).beginFails = false ∧
      (sampleStore.Set ⟨false, false, false, none, true⟩ ["a"] ["b"]).error.isSome = true) ∧
    ((sampleStore.Set ⟨false, false, false, none, true⟩ ["a"] ["b"]).table = ["a"] ∧
      (sampleStore.Set ⟨false, false, false, none, true⟩ ["a"] ["b"]).trace.getLast? =
        some SetStep.rolledBack ∧
      (sampleStore.Get noGetFail
          (sampleStore.Set ⟨false, false, false, none, true⟩ ["a"] ["b"]).table).addresses =
        some ["a"]) :=
  ⟨⟨rfl, by decide⟩,
    set_failure_rolls_back sampleStore ⟨false, false, false, none, true⟩ ["a"] ["b"]
      rfl (by decide)⟩

/-- C2: for every duplicate-free address set A, `Set(A)` then `Get()`
returns a sequence with exactly the same elements as A (order-independent
equality), regardless of the store's prior contents. -/
theorem set_then_get_roundtrip (d : DatabaseServerStore) (t : Table) (A : List String)
    (hnd : A.Nodup) :
    ∃ l, (d.Get noGetFail (d.Set noSetFail t A).table).addresses = some l ∧ l.Perm A := by
  refine ⟨A, ?_, List.Perm.refl A⟩
  simp [Set_noFail_success d t A hnd, Get_noFail]

/-- Witness for C2 on a concrete store with non-empty prior contents. -/
theorem set_then_get_roundtrip_witness :
    (["a", "b"] : List String).Nodup ∧
    (∃ l, (sampleStore.Get noGetFail
        (sampleStore.Set noSetFail ["z"] ["a", "b"]).table).addresses = some l ∧
      l.Perm ["a", "b"]) :=
  ⟨by decide, set_then_get_roundtrip sampleStore ["z"] ["a", "b"] (by decide)⟩

/-- C3: for every address list with a repeated element, `Set` on the
persistent backend fails with the duplicate-address error (distinguished
from a generic write failure) and a subsequent `Get` observes the contents
from before the call. -/
theorem set_duplicate_rejected (d : DatabaseServerStore) (t : Table) (A : List String)
    (hdup : ¬ A.Nodup) :
    (∃ a, (d.Set noSetFail t A).error = some (SetErr.duplicateAddress a)) ∧
    (d.Set noSetFail t A).table = t ∧
    (d.Get noGetFail (d.Set noSetFail t A).table).addresses = some t := by
  obtain ⟨a, ha⟩ :=
    insertLoop_duplicate noSetFail [] A 0 rfl List.nodup_nil (by simpa using hdup)
  have herr : (d.Set noSetFail t A).error = some (SetErr.duplicateAddress a) := by
    unfold DatabaseServerStore.Set
    simp [ha]
  have hsome : (d.Set noSetFail t A).error.isSome = true := by rw [herr]; rfl
  have ht := Set_error_table d noSetFail t A hsome
  exact ⟨⟨a, herr⟩, ht, by rw [ht, Get_noFail]⟩

/-- Witness for C3: a list with a repeat on a concrete store. -/
theorem set_duplicate_rejected_witness :
    (¬ (["a", "a"] : List String).Nodup) ∧
    ((∃ a, (sampleStore.Set noSetFail ["z"] ["a", "a"]).error =
        some (SetErr.duplicateAddress a)) ∧
      (sampleStore.Set noSetFail ["z"] ["a", "a"]).table = ["z"] ∧
      (sampleStore.Get noGetFail
          (sampleStore.Set noSetFail ["z"] ["a", "a"]).table).addresses = some ["z"]) :=
  ⟨by decide, set_duplicate_rejected sampleStore ["z"] ["a", "a"] (by decide)⟩

/-- C4: `Set` of the empty set is legal: for every prior state it succeeds
(absent backend failure) and a subsequent `Get` returns an empty set. -/
theorem set_empty_clears (d : DatabaseServerStore) (t : Table) :
    (d.Set noSetFail t []).error = none ∧
    (d.Get noGetFail (d.Set noSetFail t []).table).addresses = some [] := by
  simp [Set_noFail_success d t [] List.nodup_nil, Get_noFail]

/-- C5: `Set` follows exactly the specified state machine — begin one
write transaction, delete all rows, insert each input address in input
order, then commit — and any error at a non-terminal step transitions
directly to rollback, so the trace of a begun transaction is accepted by
the machine and always ends committed or rolled back, ending committed
exactly when no error is returned, with the inserted rows a prefix of the
input (the whole input on success). -/
theorem set_follows_state_machine (d : DatabaseServerStore) (fs : SetFailure) (t : Table)
    (A : List String) (hb : fs.beginFails = false) :
    (mrun (d.Set fs t A).trace MState.idle = some MState.committed ∨
      mrun (d.Set fs t A).trace MState.idle = some MState.rolledBack) ∧
    ((d.Set fs t A).error = none ↔
      mrun (d.Set fs t A).trace MState.idle = some MState.committed) ∧
    (∃ k, insertsOf (d.Set fs t A).trace = A.take k) ∧
    ((d.Set fs t A).error = none → insertsOf (d.Set fs t A).trace = A) := by
  by_cases h2 : fs.deleteFails = true
  · have hset : d.Set fs t A =
        ⟨t, some SetErr.deleteFailed, [SetStep.txBegin, SetStep.rolledBack]⟩ := by
      unfold DatabaseServerStore.Set
      simp [hb, h2]
    rw [hset]
    exact ⟨Or.inr rfl, by simp [mrun, mstep], ⟨0, rfl⟩, by simp⟩
  · by_cases h3 : fs.prepareFails = true
    · have hset : d.Set fs t A =
          ⟨t, some SetErr.prepareFailed,
            [SetStep.txBegin, SetStep.rowsDeleted, SetStep.rolledBack]⟩ := by
        unfold DatabaseServerStore.Set
        simp [hb, h2, h3]
      rw [hset]
      exact ⟨Or.inr rfl, by simp [mrun, mstep], ⟨0, rfl⟩, by simp⟩
    · cases hr : (insertLoop fs [] A 0).2.1 with
      | some e =>
        have hset : d.Set fs t A =
            ⟨t, some e,
              SetStep.txBegin :: SetStep.rowsDeleted ::
                (insertLoop fs [] A 0).2.2 ++ [SetStep.rolledBack]⟩ := by
          unfold DatabaseServerStore.Set
          simp [hb, h2, h3, hr]
        obtain ⟨k, hk⟩ := insertLoop_trace fs [] A 0
        rw [hset, hk]
        have hm : mrun (SetStep.txBegin :: SetStep.rowsDeleted ::
            (A.take k).map SetStep.rowInserted ++ [SetStep.rolledBack]) MState.idle =
            some MState.rolledBack := by
          show mrun ((A.take k).map SetStep.rowInserted ++ [SetStep.rolledBack])
            MState.rowsDel = some MState.rolledBack
          rw [mrun_rowInserted_append]
          rfl
        refine ⟨Or.inr hm, ?_, ⟨k, ?_⟩, by simp⟩
        · rw [hm]
          simp
        · show insertsOf ((A.take k).map SetStep.rowInserted ++ [SetStep.rolledBack]) =
            A.take k
          rw [insertsOf_map_append, insertsOf_rolledBack]
          simp
      | none =>
        obtain ⟨htab, htr⟩ := insertLoop_none fs [] A 0 hr
        by_cases h4 : fs.commitFails = true
        · have hset : d.Set fs t A =
              ⟨t, some SetErr.commitFailed,
                SetStep.txBegin :: SetStep.rowsDeleted ::
                  A.map SetStep.rowInserted ++ [SetStep.rolledBack]⟩ := by
            unfold DatabaseServerStore.Set
            simp [hb, h2, h3, hr, h4, htr]
          rw [hset]
          have hm : mrun (SetStep.txBegin :: SetStep.rowsDeleted ::
              A.map SetStep.rowInserted ++ [SetStep.rolledBack]) MState.idle =
              some MState.rolledBack := by
            show mrun (A.map SetStep.rowInserted ++ [SetStep.rolledBack])
              MState.rowsDel = some MState.rolledBack
            rw [mrun_rowInserted_append]
            rfl
          refine ⟨Or.inr hm, ?_, ⟨A.length, ?_⟩, by simp⟩
          · rw [hm]
            simp
          · show insertsOf (A.map SetStep.rowInserted ++ [SetStep.rolledBack]) =
              A.take A.length
            rw [insertsOf_map_append, insertsOf_rolledBack]
            simp
        · have hset : d.Set fs t A =
              ⟨A, none,
                SetStep.txBegin :: SetStep.rowsDeleted ::
                  A.map SetStep.rowInserted ++ [SetStep.committed]⟩ := by
            unfold DatabaseServerStore.Set
            simp [hb, h2, h3, hr, h4, htr, htab]
          rw [hset]
          have hm : mrun (SetStep.txBegin :: SetStep.rowsDeleted ::
              A.map SetStep.rowInserted ++ [SetStep.committed]) MState.idle =
              some MState.committed := by
            show mrun (A.map SetStep.rowInserted ++ [SetStep.committed])
              MState.rowsDel = some MState.committed
            rw [mrun_rowInserted_append]
            rfl
          have hins : insertsOf (SetStep.txBegin :: SetStep.rowsDeleted ::
              A.map SetStep.rowInserted ++ [SetStep.committed]) = A := by
            show insertsOf (A.map SetStep.rowInserted ++ [SetStep.committed]) = A
            rw [insertsOf_map_append, insertsOf_committed]
            simp
          refine ⟨Or.inl hm, Iff.intro (fun _ => hm) (fun _ => rfl),
            ⟨A.length, ?_⟩, fun _ => hins⟩
          rw [hins, List.take_length]

/-- Witness for C5: an injected failure at the first insert on a concrete
store. -/
theorem set_follows_state_machine_witness :
    ((⟨false, false, false, some 0, false⟩ : SetFailure).beginFails = false) ∧
    ((mrun (sampleStore.Set ⟨false, false, false, some 0, false⟩ ["z"] ["a"]).trace
        MState.idle = some MState.committed ∨
      mrun (sampleStore.Set ⟨false, false, false, some 0, false⟩ ["z"] ["a"]).trace
        MState.idle = some MState.rolledBack) ∧
    ((sampleStore.Set ⟨false, false, false, some 0, false⟩ ["z"] ["a"]).error = none ↔
      mrun (sampleStore.Set ⟨false, false, false, some 0, false⟩ ["z"] ["a"]).trace
        MState.idle = some MState.committed) ∧
    (∃ k, insertsOf (sampleStore.Set ⟨false, false, false, some 0, false⟩ ["z"] ["a"]).trace =
      (["a"] : List String).take k) ∧
    ((sampleStore.Set ⟨false, false, false, some 0, false⟩ ["z"] ["a"]).error = none →
      insertsOf (sampleStore.Set ⟨false, false, false, some 0, false⟩ ["z"] ["a"]).trace =
        ["a"])) :=
  ⟨rfl, set_follows_state_machine sampleStore ⟨false, false, false, some 0, false⟩
    ["z"] ["a"] rfl⟩

/-- C6: two concurrent `Set(A)` and `Set(B)` calls are serialized by the
single-connection restriction, so whichever order the backend executes
them in, a subsequent `Get` returns exactly A or exactly B, never a
mixture of elements from both. -/
theorem concurrent_sets_not_mixed (d : DatabaseServerStore) (aFirst : Bool) (t : Table)
    (A B : List String) (hA : A.Nodup) (hB : B.Nodup) :
    (d.Get noGetFail (serializeTwoSets d aFirst t A B)).addresses = some A ∨
    (d.Get noGetFail (serializeTwoSets d aFirst t A B)).addresses = some B := by
  cases aFirst with
  | false =>
    left
    simp [serializeTwoSets,
      Set_noFail_success d (d.Set noSetFail t B).table A hA, Get_noFail]
  | true =>
    right
    simp [serializeTwoSets,
      Set_noFail_success d (d.Set noSetFail t A).table B hB, Get_noFail]

/-- Witness for C6 on a concrete store and both duplicate-free sets. -/
theorem concurrent_sets_not_mixed_witness :
    ((["a"] : List String).Nodup ∧ (["b"] : List String).Nodup) ∧
    ((sampleStore.Get noGetFail
        (serializeTwoSets sampleStore true ["z"] ["a"] ["b"])).addresses = some ["a"] ∨
      (sampleStore.Get noGetFail
        (serializeTwoSets sampleStore true ["z"] ["a"] ["b"])).addresses = some ["b"]) :=
  ⟨⟨by decide, by decide⟩,
    concurrent_sets_not_mixed sampleStore true ["z"] ["a"] ["b"] (by decide) (by decide)⟩

/-- C7: `Get` is a pure read: on every path it leaves the stored set
unchanged, and a `Get` after another `Get` with no intervening `Set`
returns exactly what it would have returned before. -/
theorem get_pure_read (d : DatabaseServerStore) (fs fs2 : GetFailure) (t : Table) :
    (d.Get fs t).table = t ∧
    (d.Get fs2 (d.Get fs t).table).addresses = (d.Get fs2 t).addresses := by
  have h := Get_table d fs t
  exact ⟨h, by rw [h]⟩

/-- C8: on every exit path of `Get` — success, begin failure, query
failure, scan failure, or result-set error — the transaction it opened is
released before returning: the trace holds as many rollback events as
begin events, and whenever the begin succeeded the trace ends with the
release. -/
theorem get_releases_transaction (d : DatabaseServerStore) (fs : GetFailure) (t : Table) :
    ((d.Get fs t).trace.count GetStep.txBegin =
      (d.Get fs t).trace.count GetStep.txRolledBack) ∧
    (fs.beginFails = false →
      (d.Get fs t).trace.getLast? = some GetStep.txRolledBack) := by
  by_cases h1 : fs.beginFails = true
  · have hres : (d.Get fs t).trace = [] := by
      unfold DatabaseServerStore.Get
      simp [h1]
    rw [hres]
    exact ⟨rfl, fun hf => absurd h1 (by simp [hf])⟩
  · have h1f : fs.beginFails = false := by
      cases hfb : fs.beginFails
      · rfl
      · exact absurd hfb h1
    by_cases h2 : fs.queryFails = true
    · have hres : (d.Get fs t).trace = [GetStep.txBegin, GetStep.txRolledBack] := by
        unfold DatabaseServerStore.Get
        simp [h1, h2]
      rw [hres]
      exact ⟨rfl, fun _ => rfl⟩
    · obtain ⟨k, hk⟩ := scanLoop_trace fs.scanFailAt t 0 []
      have hres : (d.Get fs t).trace =
          GetStep.txBegin :: GetStep.queryRun ::
            (t.take k).map GetStep.rowScanned ++ [GetStep.txRolledBack] := by
        unfold DatabaseServerStore.Get
        simp only [h1, h2, if_false]
        cases hs : (scanLoop fs.scanFailAt t 0 []).1 with
        | none => simp [hs, hk]
        | some acc =>
          by_cases h3 : fs.rowsErrFails = true <;> simp [hs, h3, hk]
      rw [hres]
      constructor
      · have hcb : ((t.take k).map GetStep.rowScanned).count GetStep.txBegin = 0 := by
          rw [List.count_eq_zero]
          intro hmem
          obtain ⟨a, _, hcontra⟩ := List.mem_map.mp hmem
          exact GetStep.noConfusion hcontra
        have hcr : ((t.take k).map GetStep.rowScanned).count GetStep.txRolledBack = 0 := by
          rw [List.count_eq_zero]
          intro hmem
          obtain ⟨a, _, hcontra⟩ := List.mem_map.mp hmem
          exact GetStep.noConfusion hcontra
        exact count_get_trace ((t.take k).map GetStep.rowScanned) hcb hcr
      · intro _
        exact getLast?_cons_append GetStep.txBegin
          (GetStep.queryRun :: (t.take k).map GetStep.rowScanned) GetStep.txRolledBack

/-- Witness for C8: a scan failure at the second row on a concrete
store. -/
theorem get_releases_transaction_witness :
    ((sampleStore.Get ⟨false, false, some 1, false⟩ ["a", "b"]).trace.count
        GetStep.txBegin =
      (sampleStore.Get ⟨false, false, some 1, false⟩ ["a", "b"]).trace.count
        GetStep.txRolledBack) ∧
    ((⟨false, false, some 1, false⟩ : GetFailure).beginFails = false →
      (sampleStore.Get ⟨false, false, some 1, false⟩ ["a", "b"]).trace.getLast? =
        some GetStep.txRolledBack) :=
  get_releases_transaction sampleStore ⟨false, false, some 1, false⟩ ["a", "b"]

/-- C9: `DefaultServerStore` is idempotent with respect to schema
creation: run against storage whose servers table already exists it leaves
the storage (table and contents) unchanged and returns a usable store
configured with the default schema, table and column names and the
single-connection restriction. -/
theorem default_store_idempotent (t : Table) :
    (DefaultServerStore false false (some t)).1 = some t ∧
    (DefaultServerStore false false (some t)).2.1 =
      some (NewServerStore ⟨1⟩ "main" "servers" "address") ∧
    (DefaultServerStore false false (some t)).2.2 = none :=
  ⟨rfl, rfl, rfl⟩

/-- C10: when the backing table holds no rows, `Get` returns the
allocated empty sequence (not the nil slice) together with no error. -/
theorem get_empty_table_allocated (d : DatabaseServerStore) :
    (d.Get noGetFail []).addresses = some [] ∧ (d.Get noGetFail []).error = none := by
  simp [Get_noFail]

end Dqlite
